import Mathlib

/-!
Shallow embedding of the Thai electricity-bill OCR extraction core of
`src/backend/app.py` (class `ThaiElectricityBillOCR` and the surrounding
pipeline helpers), together with proofs settling the claims C1-C10.

Modelling conventions:
* Python `str` is modelled as `List Char` (Python 3 string indices are code
  points, matching list positions).
* Python `float` is modelled as `ℚ`.  Every numeric literal that reaches an
  arithmetic comparison in the modelled code is a short decimal string, exactly
  representable, so rational arithmetic agrees with the source away from
  float-rounding boundaries (noted where relevant, e.g. the 1.3 aspect-ratio
  threshold and the 0.15 tolerance factor).
* The regular expressions used by the source are modelled by a small
  backtracking matcher (`reMatch`) over token lists that transcribe each
  pattern; it implements Python's leftmost search with greedy quantifiers and
  ordered backtracking, word boundaries, capture groups and the IGNORECASE
  flag (ASCII case folding; the Thai characters involved are caseless).
-/

namespace CarbonOCR

/- The rational operations are `@[irreducible]` in Batteries; making them
semireducible lets `decide` evaluate the embedded functions on concrete
inputs. -/
attribute [local semireducible] Rat.mul Rat.add Rat.sub Rat.inv Rat.ofScientific

/-! ### Character classes (models of the regex classes used by `app.py`) -/

/-- Model of the regex class `[฀-๿]` (app.py:535). -/
def isThaiChar (c : Char) : Bool :=
  decide (0xE00 ≤ c.toNat ∧ c.toNat ≤ 0xE7F)

/-- Model of the regex class `\s` for the whitespace characters that can occur
in the modelled texts (ASCII whitespace). -/
def isWsChar (c : Char) : Bool :=
  decide (c = ' ' ∨ c = '\t' ∨ c = '\n' ∨ c = '\r' ∨ c = '\x0b' ∨ c = '\x0c')

/-- Model of the regex class `\w` restricted to the character repertoire of the
modelled texts: ASCII alphanumerics, underscore, and the Thai block. -/
def isWordChar (c : Char) : Bool :=
  c.isAlphanum || decide (c = '_') || isThaiChar c

def isDigitChar (c : Char) : Bool := c.isDigit

def lowerStr (l : List Char) : List Char := l.map Char.toLower

/-! ### Python string primitives -/

/-- `leadMatch p t` holds when `p` is an initial segment of `t`. -/
def leadMatch : List Char → List Char → Bool
  | [], _ => true
  | _ :: _, [] => false
  | a :: as, b :: bs => a = b && leadMatch as bs

theorem lenDropWhileLe (p : Char → Bool) (l : List Char) :
    (l.dropWhile p).length ≤ l.length := by
  induction l with
  | nil => simp [List.dropWhile]
  | cons c rest ih =>
    simp only [List.dropWhile]
    split
    · exact Nat.le_trans ih (Nat.le_succ _)
    · simp

/-- Model of Python `str.replace(k, v)`: replace all non-overlapping
occurrences of `k` left to right.  Structural recursion on a fuel that starts
at the text length; every step consumes at least one character (the keys in
the source are never empty, and the `0 < k.length` guard makes that explicit),
so the fuel never runs out. -/
def listReplaceF (k v : List Char) : Nat → List Char → List Char
  | 0, l => l
  | _ + 1, [] => []
  | fuel + 1, c :: rest =>
    if 0 < k.length ∧ leadMatch k (c :: rest) = true then
      v ++ listReplaceF k v fuel ((c :: rest).drop k.length)
    else
      c :: listReplaceF k v fuel rest

def listReplace (k v l : List Char) : List Char :=
  listReplaceF k v l.length l

/-- First index at which `needle` occurs in the haystack (Python `str.index`,
`none` when absent). -/
def indexOfSub (needle : List Char) : List Char → Option Nat
  | [] => if needle.isEmpty then some 0 else none
  | c :: rest =>
    if leadMatch needle (c :: rest) then some 0
    else (indexOfSub needle rest).map (· + 1)

/-- Model of Python's substring test `needle in hay`. -/
def containsSub (needle hay : List Char) : Bool :=
  (indexOfSub needle hay).isSome

/-- Model of Python `text.split(sep)` for a single-character separator. -/
def splitOnChar (sep : Char) : List Char → List (List Char)
  | [] => [[]]
  | c :: rest =>
    match splitOnChar sep rest with
    | [] => if c = sep then [[], []] else [[c]]
    | h :: t => if c = sep then [] :: h :: t else (c :: h) :: t

/-- Remove a trailing whitespace run (the right half of Python `str.strip()`). -/
def dropTrailWs : List Char → List Char
  | [] => []
  | c :: rest =>
    match dropTrailWs rest with
    | [] => if isWsChar c then [] else [c]
    | r => c :: r

/-- Model of Python `str.strip()` (whitespace from both ends). -/
def stripWs (l : List Char) : List Char :=
  dropTrailWs (l.dropWhile isWsChar)

/-- Python slice `text[lo:hi]` with already-clamped bounds: `List.take`
saturates at the length and `lo` arguments are built with `Nat` subtraction,
which saturates at `0` exactly like the source's `max(0, ...)`. -/
def pySlice (l : List Char) (lo hi : Nat) : List Char :=
  (l.take hi).drop lo

/-- Parse a non-empty all-digit string (as matched by `\d+`). -/
def parseNatDigits (l : List Char) : Nat :=
  l.foldl (fun a c => a * 10 + (c.toNat - 48)) 0

/-- Model of Python `float(s)` on the numeric strings matched by the source's
patterns (`digits` or `digits.digits`); exact as a rational. -/
def parseFloatQ (l : List Char) : ℚ :=
  match splitOnChar '.' l with
  | [w] => (parseNatDigits w : ℚ)
  | [w, f] => (parseNatDigits w : ℚ) + (parseNatDigits f : ℚ) / (10 ^ f.length : ℚ)
  | _ => 0

/-! ### A small backtracking regex matcher

Each Python pattern used by the source is transcribed as a `List RTok`.
`alt a b` tries `a` first (ordered alternation; `(?:g)?` is `alt g []`),
`cls p lo hi` is a greedy counted class (`hi = none` for unbounded),
`capL`/`capR` delimit a capture group (the source's groups never nest),
`bnd` is `\b`. -/

inductive RTok where
  | lit : List Char → RTok
  | cls : (Char → Bool) → Nat → Option Nat → RTok
  | alt : List RTok → List RTok → RTok
  | capL : RTok
  | capR : RTok
  | bnd : RTok

mutual
def rtokSize : RTok → Nat
  | .lit _ => 1
  | .cls _ _ _ => 1
  | .capL => 1
  | .capR => 1
  | .bnd => 1
  | .alt a b => rtoksSize a + rtoksSize b + 2
def rtoksSize : List RTok → Nat
  | [] => 0
  | t :: ts => rtokSize t + rtoksSize ts
end

theorem rtoksSize_append (a b : List RTok) :
    rtoksSize (a ++ b) = rtoksSize a + rtoksSize b := by
  induction a with
  | nil => simp [rtoksSize]
  | cons t ts ih => simp [rtoksSize, ih]; omega

/-- Case-insensitive character comparison (`Char.toLower` folds ASCII only,
matching `re.IGNORECASE` on the ASCII letters that occur in the patterns;
Thai characters are caseless). -/
def charEqCI (ci : Bool) (a b : Char) : Bool :=
  if ci then a.toLower = b.toLower else a = b

/-- `litPref ci p t`: pattern literal `p` matches an initial segment of `t`. -/
def litPref (ci : Bool) : List Char → List Char → Bool
  | [], _ => true
  | _ :: _, [] => false
  | a :: as, b :: bs => charEqCI ci a b && litPref ci as bs

/-- `[hi, hi-1, ..., lo]`, empty when `hi < lo` (greedy trial order). -/
def descRange : Nat → Nat → List Nat
  | 0, lo => if lo = 0 then [0] else []
  | n + 1, lo => if n + 1 < lo then [] else (n + 1) :: descRange n lo

/-- Backtracking matcher.  Arguments: flag, fuel, tokens, remaining text,
absolute position, previous text character (for `\b`), pending capture start,
finished captures `(start, stop)`.  Returns the end position and the captures.
Structural recursion on a fuel that starts above `rtoksSize` of the token
list; every recursive call strictly decreases that size (`alt` replaces
itself by one of its branches), so the fuel never runs out. -/
def reMatchF (ci : Bool) :
    Nat → List RTok → List Char → Nat → Option Char → Option Nat → List (Nat × Nat) →
    Option (Nat × List (Nat × Nat))
  | 0, _, _, _, _, _, _ => none
  | _ + 1, [], _, pos, _, _, done => some (pos, done)
  | fuel + 1, .lit s :: rest, t, pos, prev, pend, done =>
    if litPref ci s t then
      let prevL := match (t.take s.length).getLast? with
        | some c => some c
        | none => prev
      reMatchF ci fuel rest (t.drop s.length) (pos + s.length) prevL pend done
    else none
  | fuel + 1, .cls p lo hi :: rest, t, pos, prev, pend, done =>
    let run := (t.takeWhile p).length
    let maxK := match hi with
      | some hb => min hb run
      | none => run
    (descRange maxK lo).findSome? fun k =>
      let prevK := if k = 0 then prev else t.get? (k - 1)
      reMatchF ci fuel rest (t.drop k) (pos + k) prevK pend done
  | fuel + 1, .alt a b :: rest, t, pos, prev, pend, done =>
    (reMatchF ci fuel (a ++ rest) t pos prev pend done) <|>
      (reMatchF ci fuel (b ++ rest) t pos prev pend done)
  | fuel + 1, .capL :: rest, t, pos, prev, _, done =>
    reMatchF ci fuel rest t pos prev (some pos) done
  | fuel + 1, .capR :: rest, t, pos, prev, pend, done =>
    match pend with
    | some s => reMatchF ci fuel rest t pos prev none (done ++ [(s, pos)])
    | none => none
  | fuel + 1, .bnd :: rest, t, pos, prev, pend, done =>
    let pw := match prev with
      | some c => isWordChar c
      | none => false
    let nw := match t.head? with
      | some c => isWordChar c
      | none => false
    if pw ≠ nw then reMatchF ci fuel rest t pos prev pend done else none

def reMatch (ci : Bool) (toks : List RTok) (t : List Char) (pos : Nat)
    (prev : Option Char) (pend : Option Nat) (done : List (Nat × Nat)) :
    Option (Nat × List (Nat × Nat)) :=
  reMatchF ci (rtoksSize toks + 1) toks t pos prev pend done

/-- Model of `re.search` scanning from absolute position `i` with `prev` the
character before `i`; returns `(start, stop, captures)` of the leftmost
match. -/
def reSearchAux (ci : Bool) (toks : List RTok) :
    Nat → Option Char → List Char → Option (Nat × Nat × List (Nat × Nat))
  | i, prev, [] =>
    match reMatch ci toks [] i prev none [] with
    | some (e, caps) => some (i, e, caps)
    | none => none
  | i, prev, c :: rest =>
    match reMatch ci toks (c :: rest) i prev none [] with
    | some (e, caps) => some (i, e, caps)
    | none => reSearchAux ci toks (i + 1) (some c) rest

def reSearch (ci : Bool) (toks : List RTok) (l : List Char) :
    Option (Nat × Nat × List (Nat × Nat)) :=
  reSearchAux ci toks 0 none l

/-- Model of `re.finditer`.  The fuel starts at `length + 1`; every iteration
after a match consumes at least one character (the source's patterns never
match the empty string; a zero-width match would stop the scan), so the fuel
never runs out on the initial call. -/
def reFindAllAux (ci : Bool) (toks : List RTok) :
    Nat → Nat → Option Char → List Char → List (Nat × Nat × List (Nat × Nat))
  | 0, _, _, _ => []
  | fuel + 1, pos, prev, t =>
    match reSearchAux ci toks pos prev t with
    | none => []
    | some (i, e, caps) =>
      if e ≤ i then [(i, e, caps)]
      else (i, e, caps) :: reFindAllAux ci toks fuel e (t.get? (e - pos - 1)) (t.drop (e - pos))

def reFindAll (ci : Bool) (toks : List RTok) (l : List Char) :
    List (Nat × Nat × List (Nat × Nat)) :=
  reFindAllAux ci toks (l.length + 1) 0 none l

/-- The text of capture `(start, stop)` inside the searched text. -/
def groupStr (text : List Char) (g : Nat × Nat) : List Char :=
  pySlice text g.1 g.2

/-- Model of `re.sub(pattern, repl, text)` for the literal replacements of
app.py:541-550 (patterns without `\b` or lookarounds, so the character before
a match site is irrelevant).  Fuel as in `reFindAllAux`. -/
def reSubAux (ci : Bool) (toks : List RTok) (repl : List Char) :
    Nat → List Char → List Char
  | 0, t => t
  | fuel + 1, t =>
    match reSearchAux ci toks 0 none t with
    | none => t
    | some (i, e, _) =>
      if e ≤ i then t
      else t.take i ++ repl ++ reSubAux ci toks repl fuel (t.drop e)

def reSub (ci : Bool) (toks : List RTok) (repl : List Char) (s : List Char) :
    List Char :=
  reSubAux ci toks repl (s.length + 1) s

/-! ### `ThaiElectricityBillOCR.__init__`: configuration tables (app.py:237-297) -/

inductive BillFormat where
  | mea
  | pea
deriving DecidableEq, Repr

/-- `self.text_corrections` (app.py:274-297), in insertion order (Python dicts
iterate in insertion order).  The Thai keys are transcribed code point for
code point; in particular the first key is จ+U+0E4D+า+นวน while its value uses
the single code point ำ (U+0E33), and the last four entries map a combining
mark to itself. -/
def textCorrections : List (List Char × List Char) :=
  [("จํานวน".data, "จำนวน".data),
   ("ประจา".data, "ประจำ".data),
   ("เดอน".data, "เดือน".data),
   ("เตือน".data, "เดือน".data),
   ("หนวย".data, "หน่วย".data),
   ("รวม".data, "รวม".data),
   ("เงน".data, "เงิน".data),
   ("ชาระ".data, "ชำระ".data),
   ("ทั้งสน".data, "ทั้งสิ้น".data),
   (['O'], ['0']),
   (['l'], ['1']),
   (['I'], ['1']),
   (['S'], ['5']),
   (['o'], ['0']),
   ("าํ".data, "ำ".data),
   ("ิ".data, "ิ".data),
   ("ี".data, "ี".data),
   ("ุ".data, "ุ".data),
   ("ู".data, "ู".data)]

/-- The `for wrong, right in self.text_corrections.items(): text = text.replace(...)`
loop of app.py:531-532. -/
def corrStep (acc : List Char) (kv : List Char × List Char) : List Char :=
  listReplace kv.1 kv.2 acc

def applyCorrections (s : List Char) : List Char :=
  textCorrections.foldl corrStep s

/-- `re.sub(r'(?<=[฀-๿])\s+(?=[฀-๿])', '', text)` (app.py:535): delete every
maximal whitespace run whose neighbouring characters in the original text are
both in the Thai block.  `prev` tracks the original character before the
current position (after a run is deleted or kept the next position starts with
a non-whitespace character, so the value passed on for `prev` is only ever
consulted when it is that character). -/
def removeThaiSpacingF : Nat → Option Char → List Char → List Char
  | 0, _, l => l
  | _ + 1, _, [] => []
  | fuel + 1, prev, c :: rest =>
    if isWsChar c then
      let run := c :: rest.takeWhile isWsChar
      let after := rest.dropWhile isWsChar
      let pThai := match prev with
        | some p => isThaiChar p
        | none => false
      let nThai := match after.head? with
        | some a => isThaiChar a
        | none => false
      if pThai && nThai then removeThaiSpacingF fuel prev after
      else run ++ removeThaiSpacingF fuel (some (run.getLastD c)) after
    else c :: removeThaiSpacingF fuel (some c) rest

def removeThaiSpacing (l : List Char) : List Char :=
  removeThaiSpacingF l.length none l

/-- `re.sub(r'\s+', ' ', text)` (app.py:538): collapse each maximal whitespace
run to a single space (a whitespace character followed by another whitespace
character is dropped; the last of a run becomes the space). -/
def collapseWs : List Char → List Char
  | [] => []
  | [c] => if isWsChar c then [' '] else [c]
  | a :: b :: t =>
    if isWsChar a then
      if isWsChar b then collapseWs (b :: t)
      else ' ' :: collapseWs (b :: t)
    else a :: collapseWs (b :: t)

/-- A pattern letter followed by `\s*`, the building block of the
`thai_word_fixes` patterns (app.py:541-547). -/
def chWs (c : Char) : List RTok :=
  [.lit [c], .cls isWsChar 0 none]

/-- `thai_word_fixes` (app.py:541-547): each pattern interleaves the word's
characters with `\s*`; the replacement re-assembles the word.  The IGNORECASE
flag is passed through to the matcher (the patterns contain only caseless Thai
characters). -/
def thaiWordFixes : List (List RTok × List Char) :=
  [(chWs 'จ' ++ chWs 'ำ' ++ chWs 'น' ++ chWs 'ว' ++ [.lit ['น']], "จำนวน".data),
   (chWs 'ห' ++ chWs 'น' ++ chWs '่' ++ chWs 'ว' ++ [.lit ['ย']], "หน่วย".data),
   (chWs 'ป' ++ chWs 'ร' ++ chWs 'ะ' ++ chWs 'จ' ++ chWs 'ำ' ++ chWs 'เ' ++
      chWs 'ด' ++ chWs 'ื' ++ chWs 'อ' ++ [.lit ['น']], "ประจำเดือน".data),
   (chWs 'ร' ++ chWs 'ว' ++ chWs 'ม' ++ chWs 'เ' ++ chWs 'ง' ++ chWs 'ิ' ++
      [.lit ['น']], "รวมเงิน".data),
   (chWs 'ช' ++ chWs 'ำ' ++ chWs 'ร' ++ [.lit ['ะ']], "ชำระ".data)]

def applyWordFixes (s : List Char) : List Char :=
  thaiWordFixes.foldl (fun acc pr => reSub true pr.1 pr.2 acc) s

/-- `clean_and_correct_text` (app.py:526-552): ordered substitution table,
Thai-spacing removal, whitespace collapse, word repairs, strip. -/
def clean_and_correct_text (raw : List Char) : List Char :=
  stripWs (applyWordFixes (collapseWs (removeThaiSpacing (applyCorrections raw))))

/-! ### `detect_bill_format` (app.py:554-570) -/

def detect_bill_format (text : List Char) : BillFormat :=
  let tl := lowerStr text
  if containsSub ("การไฟฟ้านครหลวง".data) tl || containsSub ("metropolitan".data) tl ||
      containsSub ("mea".data) tl then .mea
  else if containsSub ("การไฟฟ้าส่วนภูมิภาค".data) tl || containsSub ("provincial".data) tl ||
      containsSub ("pea".data) tl then .pea
  else if containsSub ("จำนวนหน่วย".data) text then .mea
  else if containsSub ("จำนวนที่ใช้".data) text then .pea
  else .mea

/-! ### `extract_usage_amount` (app.py:572-813)

The four strategies are sequential early returns in the source, modelled as
separate functions composed with `<|>`. -/

/-- Table headers per format (app.py:578-585). -/
def dateHeaderOf : BillFormat → List Char
  | .mea => "วันที่จดเลขอ่าน".data
  | .pea => "วันที่อ่านหน่วย".data

def usageHeaderOf : BillFormat → List Char
  | .mea => "จำนวนหน่วย".data
  | .pea => "จำนวนที่ใช้".data

def altUsageHeaderOf : BillFormat → List Char
  | .mea => "จํานวนหน่วย".data
  | .pea => "จํานวนที่ใช้".data

/-- `r'\b(\d{2,5})\b'` (app.py:619 and app.py:765). -/
def intPattern : List RTok :=
  [.bnd, .capL, .cls isDigitChar 2 (some 5), .capR, .bnd]

structure NumPos where
  val : ℚ
  pos : Nat
  str : List Char
deriving Repr, DecidableEq

/-- The `numbers_with_pos` list of strategy 1 (app.py:618-622). -/
def lineNumbers (line : List Char) : List NumPos :=
  (reFindAll false intPattern line).filterMap fun r =>
    match r.2.2 with
    | [g] => some ⟨(parseNatDigits (groupStr line g) : ℚ), r.1, groupStr line g⟩
    | _ => none

/-- app.py:600-606: position of the first header found among
`[usage_header, alt_usage_header, 'kWh']`, starting from `-1`. -/
def usageColStart (fmt : BillFormat) (line : List Char) : Int :=
  match indexOfSub (usageHeaderOf fmt) line with
  | some i => (i : Int)
  | none =>
    match indexOfSub (altUsageHeaderOf fmt) line with
    | some i => (i : Int)
    | none =>
      match indexOfSub ("kWh".data) line with
      | some i => (i : Int)
      | none => -1

def distKey (col : Int) (n : NumPos) : Int := |(n.pos : Int) - col|

/-- Stable insertion into a list sorted by distance from the usage column
(Python's `list.sort` is stable, app.py:627). -/
def insertByKey (col : Int) (x : NumPos) : List NumPos → List NumPos
  | [] => [x]
  | y :: ys =>
    if distKey col x ≤ distKey col y then x :: y :: ys
    else y :: insertByKey col x ys

def sortByDist (col : Int) : List NumPos → List NumPos
  | [] => []
  | x :: xs => insertByKey col x (sortByDist col xs)

/-- app.py:629-644: candidate loop over the column-sorted numbers. -/
def pickSorted : List NumPos → Option ℚ
  | [] => none
  | n :: rest =>
    if 50 ≤ n.val ∧ n.val ≤ 5000 then
      if (1900 ≤ n.val ∧ n.val ≤ 2100) ∨ (2400 ≤ n.val ∧ n.val ≤ 2700) then pickSorted rest
      else if 10000 ≤ n.val ∧ n.str.length = 5 then pickSorted rest
      else some n.val
    else pickSorted rest

/-- app.py:646-656: validation-rule loop used when no column position. -/
def pickUnsorted : List NumPos → Option ℚ
  | [] => none
  | n :: rest =>
    if n.val ≤ 31 then pickUnsorted rest
    else if (1900 ≤ n.val ∧ n.val ≤ 2100) ∨ (2400 ≤ n.val ∧ n.val ≤ 2700) then pickUnsorted rest
    else if 10000 ≤ n.val ∧ n.str.length = 5 then pickUnsorted rest
    else if 50 ≤ n.val ∧ n.val ≤ 5000 then some n.val
    else pickUnsorted rest

/-- One data line below the header row (app.py:609-656). -/
def scanDataLine (col : Int) (line : List Char) : Option ℚ :=
  if (stripWs line).length < 10 then none
  else
    let nums := lineNumbers line
    if 0 < col ∧ nums ≠ [] then pickSorted (sortByDist col nums)
    else pickUnsorted nums

def scanDataLines (col : Int) : List (List Char) → Option ℚ
  | [] => none
  | l :: rest => scanDataLine col l <|> scanDataLines col rest

/-- Strategy 1 line scan (app.py:592-656): find a line with both the date and
the usage header, then inspect the next four lines
(`range(line_idx + 1, min(line_idx + 5, len(lines)))`). -/
def strat1Scan (fmt : BillFormat) : List (List Char) → Option ℚ
  | [] => none
  | line :: rest =>
    let hasDate := containsSub (dateHeaderOf fmt) line ||
      containsSub (listReplace ("ำ".data) ("า".data) (dateHeaderOf fmt)) line
    let hasUsage := containsSub (usageHeaderOf fmt) line ||
      containsSub (altUsageHeaderOf fmt) line || containsSub ("kWh".data) line
    (if hasDate && hasUsage then scanDataLines (usageColStart fmt line) (rest.take 4)
     else none) <|> strat1Scan fmt rest

def strategy1 (fmt : BillFormat) (text : List Char) : Option ℚ :=
  strat1Scan fmt (splitOnChar '\n' text)

def nonDigit (c : Char) : Bool := !isDigitChar c

/-- `(?:\.\d+)?` (fraction bound `none`) or `(?:\.\d{1,2})?` (bound `some 2`). -/
def decOpt (maxFrac : Option Nat) : RTok :=
  .alt [.lit ['.'], .cls isDigitChar 1 maxFrac] []

/-- `(\d{1,5}...)` capture used by the strategy-2 patterns. -/
def capNum (maxFrac : Option Nat) : List RTok :=
  [.capL, .cls isDigitChar 1 (some 5), decOpt maxFrac, .capR]

/-- app.py:664: `พลังงานไฟฟ้า[^\d]+(...)[^\d]+(...)[^\d]+(...)\s*\(หน่วย\)`. -/
def energyPattern : List RTok :=
  [.lit ("พลังงานไฟฟ้า".data), .cls nonDigit 1 none] ++ capNum none ++
  [.cls nonDigit 1 none] ++ capNum none ++
  [.cls nonDigit 1 none] ++ capNum (some 2) ++
  [.cls isWsChar 0 none, .lit ("(หน่วย)".data)]

/-- app.py:666-668: `{header}[^\d]{0,50}(\d{1,5}(?:\.\d{1,2})?)\b`. -/
def headerPat (h : List Char) : List RTok :=
  [.lit h, .cls nonDigit 0 (some 50)] ++ capNum (some 2) ++ [.bnd]

/-- app.py:669: `Comsumption\s+Unit[^\d]{0,50}(\d{1,5}(?:\.\d{1,2})?)\b`. -/
def comsumptionPat : List RTok :=
  [.lit ("Comsumption".data), .cls isWsChar 1 none, .lit ("Unit".data),
   .cls nonDigit 0 (some 50)] ++ capNum (some 2) ++ [.bnd]

/-- app.py:676-687: the พลังงานไฟฟ้า branch verifies the third capture against
the difference of the first two and returns it with no range check. -/
def tryEnergyPattern (text : List Char) : Option ℚ :=
  match reSearch true energyPattern text with
  | some (_, _, [g1, g2, g3]) =>
    let recent := parseFloatQ (groupStr text g1)
    let previous := parseFloatQ (groupStr text g2)
    let usage := parseFloatQ (groupStr text g3)
    let expected := |recent - previous|
    if |usage - expected| ≤ max 5 (expected * 0.15) then some usage else none
  | _ => none

/-- app.py:688-692: any other pattern returns its first capture when it lies
in `[10, 5000]`. -/
def tryHeaderPattern (text : List Char) (toks : List RTok) : Option ℚ :=
  match reSearch true toks text with
  | some (_, _, [g]) =>
    let value := parseFloatQ (groupStr text g)
    if 10 ≤ value ∧ value ≤ 5000 then some value else none
  | _ => none

/-- Strategy 2 (app.py:658-694), patterns in source order; searched with
`re.IGNORECASE`. -/
def strategy2 (fmt : BillFormat) (text : List Char) : Option ℚ :=
  tryEnergyPattern text <|>
  tryHeaderPattern text (headerPat (usageHeaderOf fmt)) <|>
  tryHeaderPattern text (headerPat (altUsageHeaderOf fmt)) <|>
  tryHeaderPattern text (headerPat ("จำนวนที่ใช้".data)) <|>
  tryHeaderPattern text comsumptionPat

/-- `r'\b(\d{2,5}(?:\.\d{1,2})?)\b'` (app.py:701). -/
def decNumPattern : List RTok :=
  [.bnd, .capL, .cls isDigitChar 2 (some 5), decOpt (some 2), .capR, .bnd]

structure Num3 where
  start : Nat
  val : ℚ
  str : List Char
deriving Repr

/-- The `all_numbers` list of strategy 3 (app.py:700-720) with its context
filters (phone numbers, `0-` prefixes, over-long invoice numbers). -/
def strat3Numbers (text : List Char) : List Num3 :=
  (reFindAll false decNumPattern text).filterMap fun r =>
    match r.2.2 with
    | [g] =>
      let numStr := groupStr text g
      let ctx := lowerStr (pySlice text (r.1 - 30) (r.2.1 + 30))
      if containsSub ("โทร".data) ctx then none
      else if pySlice text (r.1 - 2) r.1 = "0-".data then none
      else if 10 < (listReplace (".".data) [] numStr).length then none
      else some ⟨r.1, parseFloatQ numStr, numStr⟩
    | _ => none

/-- Strategy 3 sliding-triple loop (app.py:726-759). -/
def scanTriples : List Num3 → Option ℚ
  | a :: b :: c :: rest =>
    let expected := |a.val - b.val|
    let meaOk := 1000 ≤ a.val ∧ 1000 ≤ b.val ∧ 50 ≤ c.val ∧ c.val ≤ 5000 ∧
      c.val < a.val * 0.5 ∧ c.val < b.val * 0.5
    let peaOk := 10 ≤ a.val ∧ a.val ≤ 1000 ∧ 10 ≤ b.val ∧ b.val ≤ 1000 ∧
      10 ≤ c.val ∧ c.val ≤ 5000 ∧ 10 ≤ expected
    if meaOk ∨ peaOk then
      if |c.val - expected| ≤ max 5 (expected * 0.15) then some c.val
      else scanTriples (b :: c :: rest)
    else scanTriples (b :: c :: rest)
  | _ => none

def strategy3 (text : List Char) : Option ℚ :=
  scanTriples (strat3Numbers text)

/-- app.py:778-779. -/
def addressKeywords : List (List Char) :=
  [("ซอย".data), ("ถนน".data), ("อาคาร".data), ("ชั้น".data), ("premise".data),
   ("address".data), ("เลขที่".data), ("ห้อง".data), ("แขวง".data), ("เขต".data),
   ("ม.".data)]

/-- Strategy 4 candidate loop (app.py:765-810), checks in source order. -/
def strat4Pick (text : List Char) : List (Nat × Nat × List Char) → Option ℚ
  | [] => none
  | (s, e, numStr) :: rest =>
    let value : ℚ := (parseNatDigits numStr : ℚ)
    let closeCtx := lowerStr (pySlice text (s - 10) (e + 10))
    if addressKeywords.any (fun kw => containsSub kw closeCtx) then strat4Pick text rest
    else if containsSub ("/".data) (pySlice text (s - 2) (e + 2)) then strat4Pick text rest
    else if 1000 ≤ value ∧ 4 ≤ numStr.length then strat4Pick text rest
    else if (1900 ≤ value ∧ value ≤ 2100) ∨ (2400 ≤ value ∧ value ≤ 2700) then
      strat4Pick text rest
    else if value ≤ 31 then strat4Pick text rest
    else if 50 ≤ value ∧ value ≤ 5000 then some value
    else strat4Pick text rest

def strategy4 (text : List Char) : Option ℚ :=
  strat4Pick text ((reFindAll false intPattern text).filterMap fun r =>
    match r.2.2 with
    | [g] => some (r.1, r.2.1, groupStr text g)
    | _ => none)

/-- `extract_usage_amount` (app.py:572-813): the strategies are tried in order,
first success wins. -/
def extract_usage_amount (text : List Char) (fmt : BillFormat) : Option ℚ :=
  strategy1 fmt text <|> strategy2 fmt text <|> strategy3 text <|> strategy4 text

/-! ### `extract_bill_period` (app.py:815-850) -/

def periodKeywords : BillFormat → List (List Char)
  | .mea => [("ประจำเดือน".data), ("ประจ.เดือน".data)]
  | .pea => [("ประจำเดือน".data), ("ประจ.เดือน".data), ("Bill Period".data)]

structure BillPeriod where
  month : Nat
  year : Int
deriving DecidableEq, Repr

/-- `{keyword}\s*(\d{1,2})/(\d{2,4})` (app.py:822). -/
def periodPatA (k : List Char) : List RTok :=
  [.lit k, .cls isWsChar 0 none, .capL, .cls isDigitChar 1 (some 2), .capR,
   .lit ['/'], .capL, .cls isDigitChar 2 (some 4), .capR]

/-- `{keyword}\s*(\d{1,2})\s*(\d{2,4})` (app.py:823). -/
def periodPatB (k : List Char) : List RTok :=
  [.lit k, .cls isWsChar 0 none, .capL, .cls isDigitChar 1 (some 2), .capR,
   .cls isWsChar 0 none, .capL, .cls isDigitChar 2 (some 4), .capR]

/-- `(\d{1,2})/(\d{2,4})\s*{keyword}` (app.py:824). -/
def periodPatC (k : List Char) : List RTok :=
  [.capL, .cls isDigitChar 1 (some 2), .capR, .lit ['/'],
   .capL, .cls isDigitChar 2 (some 4), .capR, .cls isWsChar 0 none, .lit k]

/-- app.py:828-848: parse the two captures, expand a two-digit year with the
midpoint rule, convert a Buddhist year, and validate the bounds; an invalid
candidate falls through to the next pattern. -/
def tryPeriodPattern (text : List Char) (toks : List RTok) : Option BillPeriod :=
  match reSearch true toks text with
  | some (_, _, [g1, g2]) =>
    let month := parseNatDigits (groupStr text g1)
    let y0 : Int := (parseNatDigits (groupStr text g2) : Int)
    let y1 := if y0 < 100 then (if 50 < y0 then y0 + 1900 else y0 + 2000) else y0
    let y2 := if 2500 < y1 then y1 - 543 else y1
    if 1 ≤ month ∧ month ≤ 12 ∧ 2000 ≤ y2 ∧ y2 ≤ 2030 then some ⟨month, y2⟩
    else none
  | _ => none

def tryPeriodKeyword (text k : List Char) : Option BillPeriod :=
  tryPeriodPattern text (periodPatA k) <|>
  tryPeriodPattern text (periodPatB k) <|>
  tryPeriodPattern text (periodPatC k)

def tryKeywordList (text : List Char) : List (List Char) → Option BillPeriod
  | [] => none
  | k :: ks => tryPeriodKeyword text k <|> tryKeywordList text ks

def extract_bill_period (text : List Char) (fmt : BillFormat) : Option BillPeriod :=
  tryKeywordList text (periodKeywords fmt)

/-! ### `fallback_number_extraction` (app.py:874-927) -/

structure Categorized where
  usage_candidates : List ℚ
  amount_candidates : List ℚ
  meter_readings : List ℚ
  other_numbers : List ℚ
deriving DecidableEq, Repr

/-- `(?:,\d{3})*` of the pattern at app.py:878: number of characters consumed
by the comma groups (each group is exactly `,` plus three digits; the classes
are disjoint so the greedy match is deterministic). -/
def commaGroups : List Char → Nat
  | ',' :: a :: b :: c :: rest =>
    if isDigitChar a && isDigitChar b && isDigitChar c then 4 + commaGroups rest
    else 0
  | _ => 0

/-- `(?:\.\d{2})?` of the same pattern. -/
def decimalPart : List Char → Nat
  | '.' :: a :: b :: _ => if isDigitChar a && isDigitChar b then 3 else 0
  | _ => 0

/-- `re.finditer(r'(\d+(?:,\d{3})*(?:\.\d{2})?)', text)` (app.py:881): scan
for the leftmost digit, take the maximal digit run, then comma groups, then an
optional two-digit decimal; continue after the match. -/
def fallbackScanF : Nat → Nat → List Char → List (Nat × List Char)
  | 0, _, _ => []
  | _ + 1, _, [] => []
  | fuel + 1, pos, c :: rest =>
    if isDigitChar c then
      let d := c :: rest.takeWhile isDigitChar
      let afterD := (c :: rest).drop d.length
      let cg := commaGroups afterD
      let dp := decimalPart (afterD.drop cg)
      let len := d.length + cg + dp
      (pos, (c :: rest).take len) :: fallbackScanF fuel (pos + len) ((c :: rest).drop len)
    else fallbackScanF fuel (pos + 1) rest

def fallbackScan (text : List Char) : List (Nat × List Char) :=
  fallbackScanF text.length 0 text

/-- app.py:897-926: bucket one number by value range and context keywords
(the context is the 50-character window each side, lower-cased). -/
def categorizeNumber (text : List Char) (acc : Categorized) (rec : Nat × List Char) :
    Categorized :=
  let numStr := rec.2
  let value := parseFloatQ (listReplace (",".data) [] numStr)
  let ctx := lowerStr (pySlice text (rec.1 - 50) (rec.1 + numStr.length + 50))
  if (50 ≤ value ∧ value ≤ 5000) ∧
      [("หน่วย".data), ("kwh".data), ("ใช้".data), ("จำนวน".data), ("unit".data)].any
        (fun kw => containsSub kw ctx) then
    { acc with usage_candidates := acc.usage_candidates ++ [value] }
  else if (500 ≤ value ∧ value ≤ 50000) ∧
      [("บาท".data), ("amount".data), ("รวม".data), ("ชำระ".data), ("เงิน".data)].any
        (fun kw => containsSub kw ctx) then
    { acc with amount_candidates := acc.amount_candidates ++ [value] }
  else if (1000 ≤ value ∧ value ≤ 99999) ∧
      [("อ่าน".data), ("reading".data), ("meter".data), ("เลข".data)].any
        (fun kw => containsSub kw ctx) then
    { acc with meter_readings := acc.meter_readings ++ [value] }
  else
    { acc with other_numbers := acc.other_numbers ++ [value] }

def fallback_number_extraction (text : List Char) : Categorized :=
  (fallbackScan text).foldl (categorizeNumber text) ⟨[], [], [], []⟩

/-! ### `process_bill` (app.py:929-1030)

The method's I/O (temp files, PDF rendering, the external per-field OCR
scripts) is outside a shallow embedding; its decision logic is modelled as a
function of the rendered page width and height and of the per-field text
results returned by the external script. -/

structure ReadingDate where
  day : Nat
  month : Nat
  year : Int
deriving DecidableEq, Repr

/-- `r'(\d{1,2})/(\d{1,2})/(\d{2,4})'` (app.py:981). -/
def readingDatePattern : List RTok :=
  [.capL, .cls isDigitChar 1 (some 2), .capR, .lit ['/'],
   .capL, .cls isDigitChar 1 (some 2), .capR, .lit ['/'],
   .capL, .cls isDigitChar 2 (some 4), .capR]

/-- Date parsing of app.py:981-998: a two-digit year is lifted to the Buddhist
calendar (`+= 2500`), then any year above 2500 is converted to Gregorian
(`-= 543`); no bounds validation on this path. -/
def parseReadingDate (t : List Char) : Option ReadingDate :=
  match reSearch false readingDatePattern t with
  | some (_, _, [g1, g2, g3]) =>
    let day := parseNatDigits (groupStr t g1)
    let month := parseNatDigits (groupStr t g2)
    let y0 : Int := (parseNatDigits (groupStr t g3) : Int)
    let y1 := if y0 < 100 then y0 + 2500 else y0
    let y2 := if 2500 < y1 then y1 - 543 else y1
    some ⟨day, month, y2⟩
  | _ => none

structure ProcessBillOutcome where
  success : Bool
  bill_format : BillFormat
  ocr_confidence : ℚ
  usage_kwh : Option ℚ
  month : Option Nat
  year : Option Int
  error : Option (List Char)
  /-- The failure dict at app.py:1003-1008 has exactly the keys `success`,
  `error`, `extracted_data`, `raw_results`; neither return path attaches a
  rejected-candidate bucket list (the buckets `fallback_number_extraction`
  would compute), so this field is `none` on every path. -/
  rejected_candidates : Option Categorized
deriving DecidableEq, Repr

/-- `r'(\d+(?:\.\d+)?)'` (app.py:969). -/
def usageFieldPattern : List RTok :=
  [.capL, .cls isDigitChar 1 none, .alt [.lit ['.'], .cls isDigitChar 1 none] [], .capR]

def lookupField (k : List Char) (results : List (List Char × List Char)) : List Char :=
  match results.find? (fun p => decide (p.1 = k)) with
  | some p => p.2
  | none => []

/-- Decision logic of `process_bill` (app.py:940-1014): the format is chosen
purely from the page aspect ratio (app.py:944-946, `'pea' if aspect_ratio >
1.3 else 'mea'`); `ocr_confidence` is the constant `95.0` (app.py:963); the
usage field is the first number in the `จำนวนหน่วย` snippet; the reading date
comes from the format's date field; a missing (or zero, `not ... .get(...)`)
usage yields the failure dict of app.py:1002-1008. -/
def process_bill (w h : ℚ) (results : List (List Char × List Char)) :
    ProcessBillOutcome :=
  let fmt := if (1.3 : ℚ) < h / w then BillFormat.pea else BillFormat.mea
  let usageText := lookupField ("จำนวนหน่วย".data) results
  let usage : Option ℚ :=
    match reSearch false usageFieldPattern usageText with
    | some (_, _, [g]) => some (parseFloatQ (groupStr usageText g))
    | _ => none
  let dateKey := match fmt with
    | .mea => "วันที่จดเลขอ่าน".data
    | .pea => "วันที่อ่านหน่วย".data
  let rd := parseReadingDate (lookupField dateKey results)
  if usage = none ∨ usage = some 0 then
    { success := false, bill_format := fmt, ocr_confidence := 95,
      usage_kwh := usage, month := rd.map (·.month), year := rd.map (·.year),
      error := some ("Could not extract electricity usage".data),
      rejected_candidates := none }
  else
    { success := true, bill_format := fmt, ocr_confidence := 95,
      usage_kwh := usage, month := rd.map (·.month), year := rd.map (·.year),
      error := none, rejected_candidates := none }

/-! ### Confidence aggregate and period offset -/

/-- `extract_text_with_confidence` aggregate (app.py:511-512): keep the
strictly positive per-token confidences; their mean, or `0` when none. -/
def avgConfidence (confs : List Int) : ℚ :=
  let pos := confs.filter (fun c => decide (0 < c))
  if pos.isEmpty then 0 else (pos.sum : ℚ) / (pos.length : ℚ)

/-- Reading-to-usage offset logic of `process_image_ocr` (app.py:1066-1074):
subtract the configured offset from the month and, whenever the result drops
below 1, set the month to 12 and the year back by one. -/
def process_image_ocr_period (billMonth billYear offset : Int) : Int × Int :=
  let m := billMonth - offset
  if m < 1 then (12, billYear - 1) else (m, billYear)

/-- `calculate_usage_period` (test_pdf_extraction.py:31-40): the same rule with
the offset fixed at one month. -/
def calculate_usage_period (readingMonth readingYear : Int) : Int × Int :=
  let um := readingMonth - 1
  if um < 1 then (12, readingYear - 1) else (um, readingYear)

/-- The specification's reading-minus-offset rule, stated calendar-exactly
(named after the spec for the refinement comparison in claim C7): subtract
`offset` months from the reading period. -/
def specUsagePeriod (m y offset : Int) : Int × Int :=
  let t := 12 * y + (m - 1) - offset
  (t % 12 + 1, t / 12)

/-! ### Helper lemmas -/

theorem orElseSome {α : Type} {a b : Option α} {v : α}
    (h : (a <|> b) = some v) : a = some v ∨ b = some v := by
  cases a <;> simp_all

/-- The common acceptance window of strategies 1 and 4: inside `[50, 5000]`
and outside both year ranges. -/
def inUsageWindow (v : ℚ) : Prop :=
  50 ≤ v ∧ v ≤ 5000 ∧ ¬((1900 ≤ v ∧ v ≤ 2100) ∨ (2400 ≤ v ∧ v ≤ 2700))

theorem pickSorted_sound : ∀ l v, pickSorted l = some v → inUsageWindow v := by
  intro l
  induction l with
  | nil => intro v h; simp [pickSorted] at h
  | cons n rest ih =>
    intro v h
    simp only [pickSorted] at h
    split_ifs at h with h1 h2 h3
    · exact ih v h
    · exact ih v h
    · cases h; exact ⟨h1.1, h1.2, h2⟩
    · exact ih v h

theorem pickUnsorted_sound : ∀ l v, pickUnsorted l = some v → inUsageWindow v := by
  intro l
  induction l with
  | nil => intro v h; simp [pickUnsorted] at h
  | cons n rest ih =>
    intro v h
    simp only [pickUnsorted] at h
    split_ifs at h with h1 h2 h3 h4
    · exact ih v h
    · exact ih v h
    · exact ih v h
    · cases h; exact ⟨h4.1, h4.2, h2⟩
    · exact ih v h

theorem scanDataLine_sound (col : Int) (line : List Char) (v : ℚ)
    (h : scanDataLine col line = some v) : inUsageWindow v := by
  simp only [scanDataLine] at h
  split_ifs at h with h1 h2
  · exact pickSorted_sound _ v h
  · exact pickUnsorted_sound _ v h

theorem scanDataLines_sound (col : Int) : ∀ ls v, scanDataLines col ls = some v →
    inUsageWindow v := by
  intro ls
  induction ls with
  | nil => intro v h; simp [scanDataLines] at h
  | cons l rest ih =>
    intro v h
    simp only [scanDataLines] at h
    rcases orElseSome h with h' | h'
    · exact scanDataLine_sound _ _ v h'
    · exact ih v h'

theorem strat1Scan_sound (fmt : BillFormat) : ∀ ls v, strat1Scan fmt ls = some v →
    inUsageWindow v := by
  intro ls
  induction ls with
  | nil => intro v h; simp [strat1Scan] at h
  | cons line rest ih =>
    intro v h
    simp only [strat1Scan] at h
    rcases orElseSome h with h' | h'
    · split_ifs at h' with hc
      exact scanDataLines_sound _ _ v h'
    · exact ih v h'

theorem strategy1_sound (fmt : BillFormat) (text : List Char) (v : ℚ)
    (h : strategy1 fmt text = some v) : inUsageWindow v :=
  strat1Scan_sound fmt _ v h

theorem strat4Pick_sound (text : List Char) : ∀ l v, strat4Pick text l = some v →
    inUsageWindow v := by
  intro l
  induction l with
  | nil => intro v h; simp [strat4Pick] at h
  | cons rec rest ih =>
    intro v h
    obtain ⟨s, e, numStr⟩ := rec
    simp only [strat4Pick] at h
    split_ifs at h with h1 h2 h3 h4 h5 h6
    · exact ih v h
    · exact ih v h
    · exact ih v h
    · exact ih v h
    · exact ih v h
    · cases h; exact ⟨h6.1, h6.2, h4⟩
    · exact ih v h

theorem strategy4_sound (text : List Char) (v : ℚ)
    (h : strategy4 text = some v) : inUsageWindow v :=
  strat4Pick_sound text _ v h

theorem process_bill_format (w h : ℚ) (res : List (List Char × List Char)) :
    (process_bill w h res).bill_format =
      (if (1.3 : ℚ) < h / w then BillFormat.pea else BillFormat.mea) := by
  simp only [process_bill]
  split <;> rfl

/-! ### Helper lemmas for the text-corrector claims (C3 and C10) -/

theorem mem_dropWhileSub (p : Char → Bool) : ∀ (l : List Char) (c : Char), c ∈ l.dropWhile p → c ∈ l := by
  intro l
  induction l with
  | nil => intro c hc; simpa using hc
  | cons a rest ih =>
    intro c hc
    simp only [List.dropWhile] at hc
    split at hc
    · exact List.mem_cons_of_mem _ (ih c hc)
    · exact hc

theorem mem_takeWhileSub (p : Char → Bool) : ∀ (l : List Char) (c : Char), c ∈ l.takeWhile p → c ∈ l := by
  intro l
  induction l with
  | nil => intro c hc; simpa using hc
  | cons a rest ih =>
    intro c hc
    simp only [List.takeWhile] at hc
    split at hc
    · rcases List.mem_cons.mp hc with rfl | hc'
      · exact List.mem_cons_self _ _
      · exact List.mem_cons_of_mem _ (ih c hc')
    · simp at hc

theorem mem_dropTrailWs : ∀ (l : List Char) (c : Char), c ∈ dropTrailWs l → c ∈ l := by
  intro l
  induction l with
  | nil => intro c hc; simpa [dropTrailWs] using hc
  | cons a rest ih =>
    intro c hc
    simp only [dropTrailWs] at hc
    cases hdr : dropTrailWs rest with
    | nil =>
      rw [hdr] at hc
      by_cases hws : isWsChar a
      · simp [hws] at hc
      · simp only [hws, if_neg] at hc
        simp only [Bool.false_eq_true, if_false, List.mem_singleton] at hc
        subst hc
        exact List.mem_cons_self _ _
    | cons x r =>
      rw [hdr] at hc
      rcases List.mem_cons.mp hc with rfl | hc'
      · exact List.mem_cons_self _ _
      · refine List.mem_cons_of_mem _ (ih c ?_)
        rw [hdr]
        exact hc' 

theorem mem_stripWs (l : List Char) (c : Char) (hc : c ∈ stripWs l) : c ∈ l :=
  mem_dropWhileSub _ _ _ (mem_dropTrailWs _ _ hc)

theorem leadMatch_mem : ∀ (k t : List Char), leadMatch k t = true → ∀ a ∈ k, a ∈ t := by
  intro k
  induction k with
  | nil => intro t _ a ha; simp at ha
  | cons x ks ih =>
    intro t hlm a ha
    match t with
    | [] => simp [leadMatch] at hlm
    | b :: bs =>
      simp only [leadMatch, Bool.and_eq_true] at hlm
      obtain ⟨hxb, hrest⟩ := hlm
      rcases List.mem_cons.mp ha with rfl | ha'
      · exact List.mem_cons.mpr (Or.inl (of_decide_eq_true hxb))
      · exact List.mem_cons_of_mem _ (ih bs hrest a ha')

theorem mem_listReplaceF (k v : List Char) : ∀ fuel s (c : Char),
    c ∈ listReplaceF k v fuel s → c ∈ s ∨ c ∈ v := by
  intro fuel
  induction fuel with
  | zero => intro s c hc; exact Or.inl hc
  | succ n ih =>
    intro s c hc
    match s with
    | [] => simp [listReplaceF] at hc
    | a :: rest =>
      simp only [listReplaceF] at hc
      split_ifs at hc with hcond
      · rcases List.mem_append.mp hc with hv | hr
        · exact Or.inr hv
        · rcases ih _ _ hr with hs | hv
          · exact Or.inl (List.drop_subset _ _ hs)
          · exact Or.inr hv
      · rcases List.mem_cons.mp hc with rfl | hr
        · exact Or.inl (List.mem_cons_self _ _)
        · rcases ih _ _ hr with hs | hv
          · exact Or.inl (List.mem_cons_of_mem _ hs)
          · exact Or.inr hv

theorem mem_listReplace (k v s : List Char) (c : Char)
    (hc : c ∈ listReplace k v s) : c ∈ s ∨ c ∈ v :=
  mem_listReplaceF k v s.length s c hc

/-- A replacement whose key contains a character with property `p` is the
identity on texts without any such character. -/
theorem listReplaceF_id_of_missing (k v : List Char) (p : Char → Bool)
    (hk : ∃ a ∈ k, p a = true) : ∀ fuel s, (∀ c ∈ s, p c = false) →
    listReplaceF k v fuel s = s := by
  intro fuel
  induction fuel with
  | zero => intro s _; rfl
  | succ n ih =>
    intro s hs
    match s with
    | [] => rfl
    | a :: rest =>
      simp only [listReplaceF]
      rw [if_neg, ih rest (fun c hc => hs c (List.mem_cons_of_mem _ hc))]
      rintro ⟨-, hlm⟩
      obtain ⟨b, hbk, hpb⟩ := hk
      have := hs b (leadMatch_mem k _ hlm b hbk)
      rw [this] at hpb
      exact Bool.false_ne_true hpb

theorem listReplace_id_of_missing (k v : List Char) (p : Char → Bool)
    (hk : ∃ a ∈ k, p a = true) (s : List Char) (hs : ∀ c ∈ s, p c = false) :
    listReplace k v s = s :=
  listReplaceF_id_of_missing k v p hk s.length s hs

/-- A single-character replacement is a character map. -/
theorem listReplaceF_single (a b : Char) : ∀ fuel s, s.length ≤ fuel →
    listReplaceF [a] [b] fuel s = s.map (fun c => if c = a then b else c) := by
  intro fuel
  induction fuel with
  | zero =>
    intro s hs
    have : s = [] := List.length_eq_zero.mp (Nat.le_zero.mp hs)
    subst this; rfl
  | succ n ih =>
    intro s hs
    match s with
    | [] => rfl
    | c :: rest =>
      simp only [listReplaceF, List.map]
      have hlen : rest.length ≤ n := by
        simp only [List.length_cons] at hs; omega
      by_cases hca : c = a
      · subst hca
        rw [if_pos ⟨by simp, by simp [leadMatch]⟩]
        have hdrop : ((c :: rest).drop ([c] : List Char).length) = rest := rfl
        rw [hdrop, ih rest hlen, if_pos rfl]
        rfl
      · rw [if_neg, if_neg hca, ih rest hlen]
        rintro ⟨-, hlm⟩
        simp only [leadMatch, Bool.and_eq_true, decide_eq_true_eq] at hlm
        exact hca hlm.1.symm

theorem listReplace_single (a b : Char) (s : List Char) :
    listReplace [a] [b] s = s.map (fun c => if c = a then b else c) :=
  listReplaceF_single a b s.length s (le_refl _)

theorem mapIdOn {f : Char → Char} : ∀ (s : List Char), (∀ c ∈ s, f c = c) → s.map f = s := by
  intro s
  induction s with
  | nil => intro _; rfl
  | cons a rest ih =>
    intro h
    simp only [List.map]
    rw [h a (List.mem_cons_self _ _), ih (fun c hc => h c (List.mem_cons_of_mem _ hc))]

theorem mem_map_subst {a b c : Char} {s : List Char}
    (h : c ∈ s.map (fun x => if x = a then b else x)) : c = b ∨ (c ∈ s ∧ c ≠ a) := by
  obtain ⟨x, hx, rfl⟩ := List.mem_map.mp h
  by_cases hxa : x = a
  · simp [hxa]
  · right
    rw [if_neg hxa]
    exact ⟨hx, hxa⟩

theorem removeThaiSpacingF_id : ∀ fuel (prev : Option Char) (s : List Char),
    (∀ c ∈ s, isThaiChar c = false) → removeThaiSpacingF fuel prev s = s := by
  intro fuel
  induction fuel with
  | zero => intro prev s _; rfl
  | succ n ih =>
    intro prev s hs
    match s with
    | [] => rfl
    | c :: rest =>
      simp only [removeThaiSpacingF]
      have hafter : ∀ x ∈ rest.dropWhile isWsChar, isThaiChar x = false := fun x hx =>
        hs x (List.mem_cons_of_mem _ (mem_dropWhileSub _ _ _ hx))
      split_ifs with hws hdel
      · exfalso
        cases hd : rest.dropWhile isWsChar with
        | nil => rw [hd] at hdel; simp at hdel
        | cons x t =>
          rw [hd] at hdel
          simp only [List.head?_cons, Bool.and_eq_true] at hdel
          have hx : isThaiChar x = false := by
            refine hafter x ?_
            rw [hd]; exact List.mem_cons_self _ _
          rw [hx] at hdel
          exact Bool.false_ne_true hdel.2
      · rw [ih _ _ hafter]
        have := List.takeWhile_append_dropWhile (p := isWsChar) (l := rest)
        simp only [List.cons_append, this]
      · rw [ih _ _ (fun x hx => hs x (List.mem_cons_of_mem _ hx))]

theorem removeThaiSpacing_id (s : List Char) (hs : ∀ c ∈ s, isThaiChar c = false) :
    removeThaiSpacing s = s :=
  removeThaiSpacingF_id s.length none s hs

theorem mem_removeThaiSpacingF : ∀ fuel (prev : Option Char) (s : List Char) (c : Char),
    c ∈ removeThaiSpacingF fuel prev s → c ∈ s := by
  intro fuel
  induction fuel with
  | zero => intro prev s c hc; exact hc
  | succ n ih =>
    intro prev s c hc
    match s with
    | [] => exact hc
    | a :: rest =>
      simp only [removeThaiSpacingF] at hc
      split_ifs at hc with hws hdel
      · exact List.mem_cons_of_mem _ (mem_dropWhileSub _ _ _ (ih _ _ _ hc))
      · rcases List.mem_append.mp hc with hrun | hrec
        · rcases List.mem_cons.mp hrun with rfl | htw
          · exact List.mem_cons_self _ _
          · exact List.mem_cons_of_mem _ (mem_takeWhileSub _ _ _ htw)
        · exact List.mem_cons_of_mem _ (mem_dropWhileSub _ _ _ (ih _ _ _ hrec))
      · rcases List.mem_cons.mp hc with rfl | hr
        · exact List.mem_cons_self _ _
        · exact List.mem_cons_of_mem _ (ih _ _ _ hr)

theorem mem_removeThaiSpacing (s : List Char) (c : Char)
    (hc : c ∈ removeThaiSpacing s) : c ∈ s :=
  mem_removeThaiSpacingF s.length none s c hc

theorem mem_collapseWs : ∀ (s : List Char) (c : Char), c ∈ collapseWs s → c ∈ s ∨ c = ' ' := by
  intro s
  induction s with
  | nil => intro c hc; simp [collapseWs] at hc
  | cons a rest ih =>
    intro c hc
    cases rest with
    | nil =>
      simp only [collapseWs] at hc
      split at hc
      · simp only [List.mem_singleton] at hc
        exact Or.inr hc
      · simp only [List.mem_singleton] at hc
        subst hc
        exact Or.inl (List.mem_cons_self _ _)
    | cons b t =>
      simp only [collapseWs] at hc
      split_ifs at hc with h1 h2
      · rcases ih c hc with h | h
        · exact Or.inl (List.mem_cons_of_mem _ h)
        · exact Or.inr h
      · rcases List.mem_cons.mp hc with rfl | hc2
        · exact Or.inr rfl
        · rcases ih c hc2 with h | h
          · exact Or.inl (List.mem_cons_of_mem _ h)
          · exact Or.inr h
      · rcases List.mem_cons.mp hc with rfl | hc2
        · exact Or.inl (List.mem_cons_self _ _)
        · rcases ih c hc2 with h | h
          · exact Or.inl (List.mem_cons_of_mem _ h)
          · exact Or.inr h

/-- Whitespace-normal form: every whitespace character is a plain space and no
two adjacent characters are both whitespace. -/
def wsNormed : List Char → Prop
  | [] => True
  | [c] => isWsChar c = true → c = ' '
  | a :: b :: t =>
    (isWsChar a = true → a = ' ') ∧ ¬(isWsChar a = true ∧ isWsChar b = true) ∧
      wsNormed (b :: t)

theorem wsNormed_head {a : Char} {l : List Char} (h : wsNormed (a :: l)) :
    isWsChar a = true → a = ' ' := by
  cases l with
  | nil => exact h
  | cons b t => exact h.1

theorem wsNormed_tail {a : Char} {l : List Char} (h : wsNormed (a :: l)) :
    wsNormed l := by
  cases l with
  | nil => trivial
  | cons b t => exact h.2.2

theorem collapseWs_cons_not_ws {b : Char} (hb : isWsChar b = false) (t : List Char) :
    collapseWs (b :: t) = b :: collapseWs t := by
  cases t with
  | nil => simp [collapseWs, hb]
  | cons x t' => simp [collapseWs, hb]

theorem collapseWs_wsNormed : ∀ s : List Char, wsNormed (collapseWs s) := by
  intro s
  induction s with
  | nil => trivial
  | cons a rest ih =>
    cases rest with
    | nil =>
      simp only [collapseWs]
      split_ifs with h
      · intro _; rfl
      · intro hw; rw [hw] at h; simp at h
    | cons b t =>
      simp only [collapseWs]
      split_ifs with h1 h2
      · exact ih
      · have hb2 : isWsChar b = false := by
          revert h2; cases isWsChar b <;> simp
        rw [collapseWs_cons_not_ws hb2 t]
        refine ⟨fun _ => rfl, ?_, ?_⟩
        · rintro ⟨-, hb⟩
          rw [hb] at hb2; simp at hb2
        · rw [← collapseWs_cons_not_ws hb2 t]
          exact ih
      · have ha1 : isWsChar a = false := by
          revert h1; cases isWsChar a <;> simp
        cases hx : collapseWs (b :: t) with
        | nil =>
          intro hw
          rw [hw] at ha1; simp at ha1
        | cons x xs =>
          refine ⟨?_, ?_, hx ▸ ih⟩
          · intro hw
            rw [hw] at ha1; simp at ha1
          · rintro ⟨hw, -⟩
            rw [hw] at ha1; simp at ha1

theorem collapseWs_id_of_normed : ∀ s : List Char, wsNormed s → collapseWs s = s := by
  intro s
  induction s with
  | nil => intro _; rfl
  | cons a rest ih =>
    intro h
    cases rest with
    | nil =>
      simp only [collapseWs]
      split_ifs with hw
      · rw [h hw]
      · rfl
    | cons b t =>
      simp only [collapseWs]
      split_ifs with h1 h2
      · exact absurd ⟨h1, h2⟩ h.2.1
      · rw [ih (wsNormed_tail h), h.1 h1]
      · rw [ih (wsNormed_tail h)]

/-! `dropTrailWs` and `stripWs` facts. -/

theorem dropTrailWs_getLast_not_ws : ∀ (l : List Char) (c : Char),
    (dropTrailWs l).getLast? = some c → isWsChar c = false := by
  intro l
  induction l with
  | nil => intro c hc; simp [dropTrailWs] at hc
  | cons a rest ih =>
    intro c hc
    simp only [dropTrailWs] at hc
    cases hdr : dropTrailWs rest with
    | nil =>
      rw [hdr] at hc
      split_ifs at hc with hws
      · simp at hc
      · simp only [List.getLast?_singleton, Option.some.injEq] at hc
        subst hc
        exact Bool.not_eq_true _ ▸ hws
    | cons x r =>
      rw [hdr] at hc
      rw [List.getLast?_cons_cons] at hc
      refine ih c ?_
      rw [hdr]
      exact hc

theorem dropTrailWs_id : ∀ l : List Char,
    (∀ c, l.getLast? = some c → isWsChar c = false) → dropTrailWs l = l := by
  intro l
  induction l with
  | nil => intro _; rfl
  | cons a rest ih =>
    intro h
    simp only [dropTrailWs]
    cases rest with
    | nil =>
      have := h a (by simp)
      simp [dropTrailWs, this]
    | cons x rs =>
      have hrest : dropTrailWs (x :: rs) = x :: rs := by
        refine ih ?_
        intro c hc
        refine h c ?_
        rw [List.getLast?_cons_cons]
        exact hc
      rw [hrest]

theorem dropTrailWs_append_exists : ∀ l : List Char, ∃ t, l = dropTrailWs l ++ t := by
  intro l
  induction l with
  | nil => exact ⟨[], rfl⟩
  | cons a rest ih =>
    obtain ⟨t, ht⟩ := ih
    cases hdr : dropTrailWs rest with
    | nil =>
      by_cases hws : isWsChar a
      · refine ⟨a :: rest, ?_⟩
        simp [dropTrailWs, hdr, hws]
      · refine ⟨rest, ?_⟩
        simp [dropTrailWs, hdr, hws]
    | cons x r =>
      refine ⟨t, ?_⟩
      simp only [dropTrailWs, hdr]
      rw [hdr] at ht
      simp only [List.cons_append] at ht ⊢
      rw [← ht]

theorem wsNormed_append_left : ∀ (u v : List Char), wsNormed (u ++ v) → wsNormed u := by
  intro u
  induction u with
  | nil => intro v _; trivial
  | cons a u' ih =>
    intro v h
    cases u' with
    | nil =>
      intro hw
      exact wsNormed_head (by simpa using h) hw
    | cons b u'' =>
      simp only [List.cons_append] at h
      exact ⟨h.1, h.2.1, ih v h.2.2⟩

theorem wsNormed_dropWhile (p : Char → Bool) : ∀ l : List Char,
    wsNormed l → wsNormed (l.dropWhile p) := by
  intro l
  induction l with
  | nil => intro _; trivial
  | cons a rest ih =>
    intro h
    simp only [List.dropWhile]
    split
    · exact ih (wsNormed_tail h)
    · exact h

theorem wsNormed_dropTrailWs (l : List Char) (h : wsNormed l) :
    wsNormed (dropTrailWs l) := by
  obtain ⟨t, ht⟩ := dropTrailWs_append_exists l
  exact wsNormed_append_left _ t (ht ▸ h)

theorem head_dropWhile_not (p : Char → Bool) : ∀ (l : List Char) (c : Char),
    (l.dropWhile p).head? = some c → p c = false := by
  intro l
  induction l with
  | nil => intro c hc; simp [List.dropWhile] at hc
  | cons a rest ih =>
    intro c hc
    simp only [List.dropWhile] at hc
    split at hc
    · exact ih c hc
    · simp only [List.head?_cons, Option.some.injEq] at hc
      subst hc
      rename_i hp
      exact Bool.not_eq_true _ ▸ hp

theorem dropWhile_id_of_head (p : Char → Bool) (l : List Char)
    (h : ∀ c, l.head? = some c → p c = false) : l.dropWhile p = l := by
  cases l with
  | nil => rfl
  | cons a rest =>
    have := h a rfl
    simp [List.dropWhile, this]

theorem dropTrailWs_head : ∀ (l : List Char) (x : Char) (xs : List Char),
    dropTrailWs l = x :: xs → ∃ t, l = x :: t := by
  intro l
  induction l with
  | nil => intro x xs h; simp [dropTrailWs] at h
  | cons a rest ih =>
    intro x xs h
    simp only [dropTrailWs] at h
    cases hdr : dropTrailWs rest with
    | nil =>
      rw [hdr] at h
      split_ifs at h with hws
      simp only [List.cons.injEq] at h
      obtain ⟨rfl, -⟩ := h
      exact ⟨rest, rfl⟩
    | cons y r =>
      rw [hdr] at h
      simp only [List.cons.injEq] at h
      obtain ⟨rfl, -⟩ := h
      exact ⟨rest, rfl⟩

/-- `stripWs` is the identity on a string whose first and last characters are
not whitespace. -/
theorem stripWs_id (l : List Char)
    (hh : ∀ c, l.head? = some c → isWsChar c = false)
    (hl : ∀ c, l.getLast? = some c → isWsChar c = false) : stripWs l = l := by
  unfold stripWs
  rw [dropWhile_id_of_head _ _ hh, dropTrailWs_id _ hl]

/-! Latin-correction analysis: the five single-character replacements of the
table (`O`, `l`, `I`, `S`, `o`) act as character maps; the Thai-keyed entries
are identities on Thai-free text. -/

/-- No character of `s` is one of the five Latin characters the correction
table rewrites to digits. -/
@[reducible] def noBad (s : List Char) : Prop :=
  ∀ c ∈ s, c ≠ 'O' ∧ c ≠ 'o' ∧ c ≠ 'l' ∧ c ≠ 'I' ∧ c ≠ 'S'

/-- The composite effect of the five Latin entries of the correction table. -/
def latinMaps (s : List Char) : List Char :=
  ((((s.map (fun c => if c = 'O' then '0' else c)).map
      (fun c => if c = 'l' then '1' else c)).map
      (fun c => if c = 'I' then '1' else c)).map
      (fun c => if c = 'S' then '5' else c)).map
      (fun c => if c = 'o' then '0' else c)

/-- The Thai-keyed entries before the Latin block of `textCorrections`. -/
def thaiKeysA : List (List Char × List Char) :=
  [("จํานวน".data, "จำนวน".data),
   ("ประจา".data, "ประจำ".data),
   ("เดอน".data, "เดือน".data),
   ("เตือน".data, "เดือน".data),
   ("หนวย".data, "หน่วย".data),
   ("รวม".data, "รวม".data),
   ("เงน".data, "เงิน".data),
   ("ชาระ".data, "ชำระ".data),
   ("ทั้งสน".data, "ทั้งสิ้น".data)]

/-- The Latin block of `textCorrections`. -/
def latinPairs : List (List Char × List Char) :=
  [(['O'], ['0']), (['l'], ['1']), (['I'], ['1']), (['S'], ['5']), (['o'], ['0'])]

/-- The Thai-keyed entries after the Latin block of `textCorrections`. -/
def thaiKeysB : List (List Char × List Char) :=
  [("าํ".data, "ำ".data), ("ิ".data, "ิ".data), ("ี".data, "ี".data),
   ("ุ".data, "ุ".data), ("ู".data, "ู".data)]

theorem textCorrections_eq : textCorrections = thaiKeysA ++ (latinPairs ++ thaiKeysB) := rfl

theorem latinMaps_noBad (s : List Char) : noBad (latinMaps s) := by
  intro c hc
  unfold latinMaps at hc
  rcases mem_map_subst hc with rfl | ⟨hc, ho⟩
  · decide
  rcases mem_map_subst hc with rfl | ⟨hc, hS⟩
  · decide
  rcases mem_map_subst hc with rfl | ⟨hc, hI⟩
  · decide
  rcases mem_map_subst hc with rfl | ⟨hc, hl⟩
  · decide
  rcases mem_map_subst hc with rfl | ⟨hc, hO⟩
  · decide
  exact ⟨hO, ho, hl, hI, hS⟩

theorem thaiFree_latinMaps (s : List Char) (hs : ∀ c ∈ s, isThaiChar c = false) :
    ∀ c ∈ latinMaps s, isThaiChar c = false := by
  intro c hc
  unfold latinMaps at hc
  rcases mem_map_subst hc with rfl | ⟨hc, -⟩
  · decide
  rcases mem_map_subst hc with rfl | ⟨hc, -⟩
  · decide
  rcases mem_map_subst hc with rfl | ⟨hc, -⟩
  · decide
  rcases mem_map_subst hc with rfl | ⟨hc, -⟩
  · decide
  rcases mem_map_subst hc with rfl | ⟨hc, -⟩
  · decide
  exact hs c hc

theorem latinMaps_id (s : List Char) (hs : noBad s) : latinMaps s = s := by
  unfold latinMaps
  rw [mapIdOn s (fun c hc => if_neg (hs c hc).1),
      mapIdOn s (fun c hc => if_neg (hs c hc).2.2.1),
      mapIdOn s (fun c hc => if_neg (hs c hc).2.2.2.1),
      mapIdOn s (fun c hc => if_neg (hs c hc).2.2.2.2),
      mapIdOn s (fun c hc => if_neg (hs c hc).2.1)]

theorem noBad_listReplace (k v s : List Char) (hs : noBad s) (hv : noBad v) :
    noBad (listReplace k v s) := fun c hc =>
  (mem_listReplace k v s c hc).elim (hs c) (hv c)

theorem foldl_corrStep_id : ∀ (pairs : List (List Char × List Char)) (s : List Char),
    (∀ kv ∈ pairs, ∃ a ∈ kv.1, isThaiChar a = true) →
    (∀ c ∈ s, isThaiChar c = false) →
    pairs.foldl corrStep s = s := by
  intro pairs
  induction pairs with
  | nil => intro s _ _; rfl
  | cons kv rest ih =>
    intro s hp hs
    simp only [List.foldl, corrStep]
    rw [listReplace_id_of_missing kv.1 kv.2 isThaiChar (hp kv (List.mem_cons_self _ _)) s hs]
    exact ih s (fun x hx => hp x (List.mem_cons_of_mem _ hx)) hs

theorem foldl_corrStep_noBad : ∀ (pairs : List (List Char × List Char)) (s : List Char),
    (∀ kv ∈ pairs, noBad kv.2) → noBad s → noBad (pairs.foldl corrStep s) := by
  intro pairs
  induction pairs with
  | nil => intro s _ hs; exact hs
  | cons kv rest ih =>
    intro s hp hs
    simp only [List.foldl, corrStep]
    exact ih _ (fun x hx => hp x (List.mem_cons_of_mem _ hx))
      (noBad_listReplace kv.1 kv.2 s hs (hp kv (List.mem_cons_self _ _)))

theorem foldl_latinPairs (s : List Char) : latinPairs.foldl corrStep s = latinMaps s := by
  simp only [latinPairs, List.foldl, corrStep]
  rw [listReplace_single 'O' '0', listReplace_single 'l' '1', listReplace_single 'I' '1',
      listReplace_single 'S' '5', listReplace_single 'o' '0']
  rfl

theorem applyCorrections_thaiFree (s : List Char) (hs : ∀ c ∈ s, isThaiChar c = false) :
    applyCorrections s = latinMaps s := by
  unfold applyCorrections
  rw [textCorrections_eq, List.foldl_append, List.foldl_append]
  rw [foldl_corrStep_id thaiKeysA s (by decide) hs, foldl_latinPairs]
  exact foldl_corrStep_id thaiKeysB (latinMaps s) (by decide) (thaiFree_latinMaps s hs)

theorem noBad_applyCorrections (s : List Char) : noBad (applyCorrections s) := by
  unfold applyCorrections
  rw [textCorrections_eq, List.foldl_append, List.foldl_append, foldl_latinPairs]
  exact foldl_corrStep_noBad thaiKeysB _ (by decide) (latinMaps_noBad _)

/-! Word-fix patterns start with a Thai literal, so on Thai-free text every
`re.sub` of app.py:549-550 is the identity. -/

theorem toLower_eq_thai {b c0 : Char} (hth : 0xE00 ≤ c0.toNat ∧ c0.toNat ≤ 0xE7F)
    (h : b.toLower = c0) : b = c0 := by
  unfold Char.toLower at h
  simp only [] at h
  split_ifs at h with hc
  · exfalso
    have h1 : (Char.ofNat (b.toNat + 32)).toNat = b.toNat + 32 := by
      unfold Char.ofNat
      split_ifs with hv
      · rfl
      · exfalso
        unfold Nat.isValidChar at hv
        push_neg at hv
        omega
    have := congrArg Char.toNat h
    rw [h1] at this
    omega
  · exact h

theorem charEqCI_thai_false {c0 b : Char} (hth : isThaiChar c0 = true)
    (hb : isThaiChar b = false) : charEqCI true c0 b = false := by
  have hbounds : 0xE00 ≤ c0.toNat ∧ c0.toNat ≤ 0xE7F := by
    simpa [isThaiChar] using hth
  have hc0 : c0.toLower = c0 := by
    unfold Char.toLower
    simp only []
    rw [if_neg]
    omega
  simp only [charEqCI, if_true, decide_eq_false_iff_not]
  intro heq
  rw [hc0] at heq
  have hb0 : b = c0 := toLower_eq_thai hbounds heq.symm
  rw [hb0, hth] at hb
  simp at hb

theorem reMatchF_litFail {ci : Bool} {s : List Char} {rest : List RTok}
    {t : List Char} (hlit : litPref ci s t = false) :
    ∀ fuel pos prev pend done,
      reMatchF ci fuel (.lit s :: rest) t pos prev pend done = none := by
  intro fuel pos prev pend done
  cases fuel with
  | zero => rfl
  | succ n => simp [reMatchF, hlit]

theorem reSearch_litThai_none (c0 : Char) (rest : List RTok)
    (hth : isThaiChar c0 = true) :
    ∀ (t : List Char), (∀ c ∈ t, isThaiChar c = false) →
      ∀ i prev, reSearchAux true (.lit [c0] :: rest) i prev t = none := by
  intro t
  induction t with
  | nil =>
    intro _ i prev
    have hl : litPref true [c0] ([] : List Char) = false := rfl
    simp only [reSearchAux, reMatch]
    rw [reMatchF_litFail hl]
  | cons b bs ih =>
    intro hfree i prev
    have hb : isThaiChar b = false := hfree b (List.mem_cons_self _ _)
    have hl : litPref true [c0] (b :: bs) = false := by
      simp only [litPref]
      rw [charEqCI_thai_false hth hb]
      rfl
    simp only [reSearchAux, reMatch]
    rw [reMatchF_litFail hl]
    exact ih (fun c hc => hfree c (List.mem_cons_of_mem _ hc)) (i + 1) (some b)

theorem reSub_id_of_none (ci : Bool) (toks : List RTok) (repl s : List Char)
    (h : reSearchAux ci toks 0 none s = none) : reSub ci toks repl s = s := by
  simp only [reSub, reSubAux, h]

theorem applyWordFixes_id (s : List Char) (hs : ∀ c ∈ s, isThaiChar c = false) :
    applyWordFixes s = s := by
  simp only [applyWordFixes, thaiWordFixes, List.foldl, chWs, List.cons_append,
    List.nil_append]
  rw [reSub_id_of_none _ _ _ _ (reSearch_litThai_none 'จ' _ (by decide) s hs 0 none)]
  rw [reSub_id_of_none _ _ _ _ (reSearch_litThai_none 'ห' _ (by decide) s hs 0 none)]
  rw [reSub_id_of_none _ _ _ _ (reSearch_litThai_none 'ป' _ (by decide) s hs 0 none)]
  rw [reSub_id_of_none _ _ _ _ (reSearch_litThai_none 'ร' _ (by decide) s hs 0 none)]
  rw [reSub_id_of_none _ _ _ _ (reSearch_litThai_none 'ช' _ (by decide) s hs 0 none)]

theorem mem_reSubAux (ci : Bool) (toks : List RTok) (repl : List Char) :
    ∀ fuel (t : List Char) (c : Char), c ∈ reSubAux ci toks repl fuel t →
      c ∈ t ∨ c ∈ repl := by
  intro fuel
  induction fuel with
  | zero => intro t c hc; exact Or.inl hc
  | succ n ih =>
    intro t c hc
    simp only [reSubAux] at hc
    split at hc
    · exact Or.inl hc
    · split at hc
      · exact Or.inl hc
      · rcases List.mem_append.mp hc with h1 | h2
        · rcases List.mem_append.mp h1 with ht | hr
          · exact Or.inl (List.take_subset _ _ ht)
          · exact Or.inr hr
        · rcases ih _ _ h2 with ht | hr
          · exact Or.inl (List.drop_subset _ _ ht)
          · exact Or.inr hr

theorem noBad_reSub (toks : List RTok) (repl s : List Char) (hs : noBad s)
    (hr : noBad repl) : noBad (reSub true toks repl s) := fun c hc =>
  (mem_reSubAux true toks repl _ s c hc).elim (hs c) (hr c)

theorem noBad_applyWordFixes (s : List Char) (hs : noBad s) :
    noBad (applyWordFixes s) := by
  simp only [applyWordFixes, thaiWordFixes, List.foldl]
  refine noBad_reSub _ _ _ (noBad_reSub _ _ _ (noBad_reSub _ _ _
    (noBad_reSub _ _ _ (noBad_reSub _ _ _ hs (by decide)) (by decide))
    (by decide)) (by decide)) (by decide)

/-- The first character of `stripWs l`, when it exists, is not whitespace. -/
theorem stripWs_head_not_ws (l : List Char) :
    ∀ c, (stripWs l).head? = some c → isWsChar c = false := by
  intro c hc
  cases hcase : stripWs l with
  | nil => rw [hcase] at hc; simp at hc
  | cons a ys =>
    rw [hcase] at hc
    simp only [List.head?_cons, Option.some.injEq] at hc
    obtain ⟨t, ht⟩ := dropTrailWs_head (l.dropWhile isWsChar) a ys hcase
    have ha : isWsChar a = false := by
      refine head_dropWhile_not isWsChar l a ?_
      rw [ht]
      rfl
    rw [← hc]
    exact ha

/-- The last character of `stripWs l`, when it exists, is not whitespace. -/
theorem stripWs_last_not_ws (l : List Char) :
    ∀ c, (stripWs l).getLast? = some c → isWsChar c = false := fun c hc =>
  dropTrailWs_getLast_not_ws (l.dropWhile isWsChar) c hc

/-! ### Claims -/

/-- Claim C2: for the period text `12/04/68`, the `process_bill` date logic
yields month 4 and year 2025 (the two-digit year 68 is lifted to the Buddhist
year 2568 and converted to Gregorian by subtracting 543); the assembled
pipeline result carries that month and year. -/
theorem claim_C2 :
    parseReadingDate ("12/04/68".data) = some { day := 12, month := 4, year := 2025 } ∧
    (process_bill 1000 1200 [(("จำนวนหน่วย".data), ("245".data)),
        (("วันที่จดเลขอ่าน".data), ("12/04/68".data))]).month = some 4 ∧
    (process_bill 1000 1200 [(("จำนวนหน่วย".data), ("245".data)),
        (("วันที่จดเลขอ่าน".data), ("12/04/68".data))]).year = some 2025 := by
  refine ⟨by decide, by decide, by decide⟩

/-- Claim C6: on text containing exactly the numeric tokens
`69601 68211 1390` and no keywords, the meter-difference strategy (strategy 3)
accepts 1390 because `|69601 - 68211| = 1390` is within the tolerance
`max(5, 0.15 * expected)`, and the whole cascade returns it for either bill
format. -/
theorem claim_C6 :
    strategy3 ("69601 68211 1390".data) = some 1390 ∧
    extract_usage_amount ("69601 68211 1390".data) BillFormat.mea = some 1390 ∧
    extract_usage_amount ("69601 68211 1390".data) BillFormat.pea = some 1390 := by
  refine ⟨by decide, by decide, by decide⟩

/-- Counterexample to claim C1 as stated: strategy 2's keyword pattern
(`{usage_header}[^\d]{0,50}(\d{1,5}...)\b`, app.py:666) accepts any value in
`[10, 5000]` with no year or date rejection, so the cascade returns 2000 —
inside the forbidden range `[1900, 2100]` — on the text `จำนวนหน่วย 2000`,
and 15 (≤ 31) on `จำนวนหน่วย 15`. -/
theorem claim_C1_cex :
    extract_usage_amount ("จำนวนหน่วย 2000".data) BillFormat.mea = some 2000 ∧
    (1900 ≤ (2000 : ℚ) ∧ (2000 : ℚ) ≤ 2100) ∧
    extract_usage_amount ("จำนวนหน่วย 15".data) BillFormat.mea = some 15 ∧
    (15 : ℚ) ≤ 31 := by
  refine ⟨by decide, by decide, by decide, by decide⟩

/-- Claim C1 (amended): the shared rejection rules hold for strategy 1
(header-column alignment) and strategy 4 (filtered last resort): any value one
of them returns exceeds 31 and avoids both year ranges (it lies in
`[50, 5000]` minus the year ranges).  Strategies 2 and 3 do not apply these
rejections (see the counterexample). -/
theorem claim_C1_amended (text : List Char) (fmt : BillFormat) (v : ℚ)
    (h : strategy1 fmt text = some v ∨ strategy4 text = some v) :
    31 < v ∧ ¬(1900 ≤ v ∧ v ≤ 2100) ∧ ¬(2400 ≤ v ∧ v ≤ 2700) ∧
    50 ≤ v ∧ v ≤ 5000 := by
  have hw : inUsageWindow v := by
    rcases h with h | h
    · exact strategy1_sound fmt text v h
    · exact strategy4_sound text v h
  obtain ⟨h1, h2, h3⟩ := hw
  refine ⟨by linarith, fun hy => h3 (Or.inl hy), fun hy => h3 (Or.inr hy), h1, h2⟩

theorem claim_C1_wit :
    31 < (245 : ℚ) ∧ ¬(1900 ≤ (245 : ℚ) ∧ (245 : ℚ) ≤ 2100) ∧
    ¬(2400 ≤ (245 : ℚ) ∧ (245 : ℚ) ≤ 2700) ∧ 50 ≤ (245 : ℚ) ∧ (245 : ℚ) ≤ 5000 :=
  claim_C1_amended ("abc 245 def".data) BillFormat.mea 245 (Or.inr (by decide))

/-- Counterexample to claim C5 as stated: the pipeline attaches the constant
95.0 as `ocr_confidence` (app.py:963), not the token mean — for a token list
with a single confidence 50 the mean is 50, yet the result says 95. -/
theorem claim_C5_cex :
    (process_bill 1000 1200 [(("จำนวนหน่วย".data), ("245".data))]).ocr_confidence = 95 ∧
    avgConfidence [50] = 50 ∧ ¬(95 : ℚ) = 50 := by
  refine ⟨by decide, by decide, by decide⟩

/-- The specification's confidence aggregate, in its own words: the arithmetic
mean of all strictly positive per-token confidences, zero when there are
none. -/
def specPositiveMean (confs : List Int) : ℚ :=
  let pos := confs.filter (fun c => decide (0 < c))
  if pos = [] then 0 else (pos.sum : ℚ) / (pos.length : ℚ)

/-- Claim C5 (amended): `extract_text_with_confidence` computes the mean of
the strictly positive per-token confidences (zero when none), but the main
pipeline (`process_bill`) never consults it: every `process_bill` result
carries the fixed confidence 95.0. -/
theorem claim_C5_amended (w h : ℚ) (results : List (List Char × List Char))
    (confs : List Int) :
    (process_bill w h results).ocr_confidence = 95 ∧
    avgConfidence confs = specPositiveMean confs := by
  constructor
  · simp only [process_bill]
    split <;> rfl
  · simp only [avgConfidence, specPositiveMean, List.isEmpty_iff]

/-- Counterexample to claim C7 as stated: with offset 2 and reading period
January 2025 the code clamps the month to 12 (app.py:1072-1074) instead of
wrapping to November, so the result is not "the reading period minus the
offset in months". -/
theorem claim_C7_cex :
    process_image_ocr_period 1 2025 2 = (12, 2024) ∧
    specUsagePeriod 1 2025 2 = (11, 2024) ∧
    ¬((12, 2024) : Int × Int) = (11, 2024) := by
  refine ⟨by decide, by decide, by decide⟩

/-- Claim C7 (amended): for the offsets the code is configured with in
practice — 0 (the default) and 1 — the computed usage period is exactly the
reading period minus the offset in months, with the year rolled back by one
when the subtraction crosses below January (so reading month 1 with offset 1
gives month 12 of the previous year); `calculate_usage_period` is the same
rule with the offset fixed at 1.  For offsets ≥ 2 the month is clamped to 12
instead (see the counterexample). -/
theorem claim_C7_amended (m y offset : Int) (hm1 : 1 ≤ m) (hm2 : m ≤ 12)
    (hoff : offset = 0 ∨ offset = 1) :
    process_image_ocr_period m y offset = specUsagePeriod m y offset ∧
    calculate_usage_period m y = process_image_ocr_period m y 1 := by
  constructor
  · rcases hoff with h | h <;> subst h <;>
      simp only [process_image_ocr_period, specUsagePeriod] <;>
      split_ifs <;> simp only [Prod.mk.injEq] <;> constructor <;> omega
  · simp only [calculate_usage_period, process_image_ocr_period]

theorem claim_C7_wit :
    (process_image_ocr_period 1 2025 1 = specUsagePeriod 1 2025 1 ∧
      calculate_usage_period 1 2025 = process_image_ocr_period 1 2025 1) ∧
    process_image_ocr_period 1 2025 1 = (12, 2024) :=
  ⟨claim_C7_amended 1 2025 1 (by decide) (by decide) (Or.inr rfl), by decide⟩

/-- Counterexample to claim C4 as stated: when the usage field yields no
number, the failure dict of app.py:1003-1008 carries no bucketed
rejected-candidates list at all (its keys are `success`, `error`,
`extracted_data`, `raw_results`), while the claim requires a non-empty one. -/
theorem claim_C4_cex :
    (process_bill 1000 1200 []).success = false ∧
    (process_bill 1000 1200 []).rejected_candidates = none := by
  refine ⟨by decide, by decide⟩

/-- Claim C4 (amended): when the usage field yields no numeric match the
pipeline returns a structured result (no exception) with `success = false`,
an error message, and no fabricated usage value; but it attaches no bucketed
list of rejected candidates — that classification exists in
`fallback_number_extraction` (which does produce non-empty buckets on numeric
text) yet has no callers. -/
theorem claim_C4_amended (w h : ℚ) (results : List (List Char × List Char))
    (hu : (process_bill w h results).usage_kwh = none) :
    (process_bill w h results).success = false ∧
    (process_bill w h results).error = some ("Could not extract electricity usage".data) ∧
    (process_bill w h results).usage_kwh = none ∧
    (process_bill w h results).rejected_candidates = none ∧
    (fallback_number_extraction ("888 บาท".data)).amount_candidates ≠ [] := by
  simp only [process_bill] at hu ⊢
  constructor
  · split at hu <;> split <;> simp_all
  refine ⟨?_, ?_, ?_, by decide⟩
  · split at hu <;> split <;> simp_all
  · split at hu <;> split <;> simp_all
  · split <;> rfl

theorem claim_C4_wit :
    (process_bill 1000 1200 []).success = false ∧
    (process_bill 1000 1200 []).error = some ("Could not extract electricity usage".data) ∧
    (process_bill 1000 1200 []).usage_kwh = none ∧
    (process_bill 1000 1200 []).rejected_candidates = none ∧
    (fallback_number_extraction ("888 บาท".data)).amount_candidates ≠ [] :=
  claim_C4_amended 1000 1200 [] (by decide)

/-- Claim C9: on the `process_bill` path the bill format is decided solely by
the aspect ratio of the rendered page — `pea` exactly when height/width
exceeds 1.3 — so the result is independent of every extracted text, the
text-based classifier `detect_bill_format` (which reads the authority name
out of the text) is not consulted, and the same field texts under a tall page
(1000×1500) and a wide page (1000×1200) are assigned `pea` and `mea`
respectively. -/
theorem claim_C9 (w h : ℚ) (hw : 0 < w) (res res2 : List (List Char × List Char)) :
    ((process_bill w h res).bill_format = BillFormat.pea ↔ (13 / 10 : ℚ) < h / w) ∧
    (process_bill w h res).bill_format = (process_bill w h res2).bill_format ∧
    detect_bill_format ("การไฟฟ้านครหลวง".data) = BillFormat.mea ∧
    (process_bill 1000 1500 res).bill_format = BillFormat.pea ∧
    (process_bill 1000 1200 res).bill_format = BillFormat.mea := by
  have h13 : (1.3 : ℚ) = 13 / 10 := by norm_num
  refine ⟨?_, ?_, by decide, ?_, ?_⟩
  · rw [process_bill_format, h13]
    split_ifs with hc
    · simp [hc]
    · simp [hc]
  · rw [process_bill_format, process_bill_format]
  · rw [process_bill_format]
    norm_num
  · rw [process_bill_format]
    norm_num

theorem periodGuard_extract {month : Nat} {year : Int} {r : BillPeriod}
    (h : (if 1 ≤ month ∧ month ≤ 12 ∧ 2000 ≤ year ∧ year ≤ 2030
          then some (⟨month, year⟩ : BillPeriod) else none) = some r) :
    1 ≤ r.month ∧ r.month ≤ 12 ∧ 2000 ≤ r.year ∧ r.year ≤ 2030 := by
  split at h
  · obtain rfl := Option.some.inj h
    assumption
  · exact absurd h (by simp)

theorem tryPeriodPattern_sound (text : List Char) (toks : List RTok) (r : BillPeriod)
    (h : tryPeriodPattern text toks = some r) :
    1 ≤ r.month ∧ r.month ≤ 12 ∧ 2000 ≤ r.year ∧ r.year ≤ 2030 := by
  rcases hs : reSearch true toks text with _ | ⟨s, e, caps⟩
  · simp only [tryPeriodPattern, hs] at h
    exact absurd h (by simp)
  · simp only [tryPeriodPattern, hs] at h
    match caps with
    | [] => simp at h
    | [g1] => simp at h
    | [g1, g2] => exact periodGuard_extract h
    | g1 :: g2 :: g3 :: rest => simp at h

theorem tryPeriodKeyword_sound (text k : List Char) (r : BillPeriod)
    (h : tryPeriodKeyword text k = some r) :
    1 ≤ r.month ∧ r.month ≤ 12 ∧ 2000 ≤ r.year ∧ r.year ≤ 2030 := by
  simp only [tryPeriodKeyword] at h
  rcases orElseSome h with h' | h'
  · exact tryPeriodPattern_sound _ _ _ h'
  · rcases orElseSome h' with h'' | h''
    · exact tryPeriodPattern_sound _ _ _ h''
    · exact tryPeriodPattern_sound _ _ _ h''

theorem tryKeywordList_sound (text : List Char) : ∀ ks r,
    tryKeywordList text ks = some r →
    1 ≤ r.month ∧ r.month ≤ 12 ∧ 2000 ≤ r.year ∧ r.year ≤ 2030 := by
  intro ks
  induction ks with
  | nil => intro r h; simp [tryKeywordList] at h
  | cons k rest ih =>
    intro r h
    simp only [tryKeywordList] at h
    rcases orElseSome h with h' | h'
    · exact tryPeriodKeyword_sound _ _ _ h'
    · exact ih r h'

/-- Claim C8: for every input text and bill format, `extract_bill_period`
returns either nothing or a period whose month lies in `[1, 12]` and whose
year — after two-digit expansion and Buddhist-calendar conversion — lies in
`[2000, 2030]`; every candidate outside those bounds is discarded. -/
theorem claim_C8 (text : List Char) (fmt : BillFormat) (r : BillPeriod)
    (h : extract_bill_period text fmt = some r) :
    1 ≤ r.month ∧ r.month ≤ 12 ∧ 2000 ≤ r.year ∧ r.year ≤ 2030 :=
  tryKeywordList_sound text _ r h

theorem claim_C8_wit :
    extract_bill_period ("ประจำเดือน 04/2568".data) BillFormat.mea =
      some { month := 4, year := 2025 } ∧
    (1 ≤ (4 : Nat) ∧ (4 : Nat) ≤ 12 ∧ 2000 ≤ (2025 : Int) ∧ (2025 : Int) ≤ 2030) :=
  ⟨by decide,
   claim_C8 ("ประจำเดือน 04/2568".data) BillFormat.mea { month := 4, year := 2025 }
     (by decide)⟩

theorem claim_C9_wit :
    ((process_bill 1000 1550 []).bill_format = BillFormat.pea ↔
      (13 / 10 : ℚ) < 1550 / 1000) ∧
    (process_bill 1000 1550 []).bill_format = (process_bill 1000 1550 [([], [])]).bill_format ∧
    detect_bill_format ("การไฟฟ้านครหลวง".data) = BillFormat.mea ∧
    (process_bill 1000 1500 []).bill_format = BillFormat.pea ∧
    (process_bill 1000 1200 []).bill_format = BillFormat.mea :=
  claim_C9 1000 1550 (by norm_num) [] [([], [])]

/-- Counterexample to claim C3 as stated: the corrector is not idempotent.
On the two-character input SARA AA (U+0E32), space, NIKHAHIT (U+0E4D), the
first pass only joins the characters (the spacing rule of app.py:535 removes
the whitespace between two Thai characters), producing the two-character
string U+0E32 U+0E4D; the second pass then applies the correction-table entry
`าํ → ำ` (app.py:292), producing the single character U+0E33. -/
theorem claim_C3_cex :
    clean_and_correct_text (clean_and_correct_text ("า ํ".data)) ≠
      clean_and_correct_text ("า ํ".data) := by
  decide

/-- Claim C3 (amended): the corrector is idempotent on inputs with no
characters from the Thai block; in general it is not, because removing
whitespace between Thai characters can assemble a correction-table key that
only the second application rewrites (see the counterexample). -/
theorem claim_C3_amended (x : List Char) (hx : ∀ c ∈ x, isThaiChar c = false) :
    clean_and_correct_text (clean_and_correct_text x) = clean_and_correct_text x := by
  have hL : applyCorrections x = latinMaps x := applyCorrections_thaiFree x hx
  have hLfree : ∀ c ∈ latinMaps x, isThaiChar c = false := thaiFree_latinMaps x hx
  have hLbad : noBad (latinMaps x) := latinMaps_noBad x
  have hzfree : ∀ c ∈ collapseWs (latinMaps x), isThaiChar c = false := by
    intro c hc
    rcases mem_collapseWs _ c hc with h | rfl
    · exact hLfree c h
    · decide
  have hzbad : noBad (collapseWs (latinMaps x)) := by
    intro c hc
    rcases mem_collapseWs _ c hc with h | rfl
    · exact hLbad c h
    · decide
  have hclean1 : clean_and_correct_text x = stripWs (collapseWs (latinMaps x)) := by
    unfold clean_and_correct_text
    rw [hL, removeThaiSpacing_id _ hLfree, applyWordFixes_id _ hzfree]
  have hyfree : ∀ c ∈ stripWs (collapseWs (latinMaps x)), isThaiChar c = false :=
    fun c hc => hzfree c (mem_stripWs _ c hc)
  have hybad : noBad (stripWs (collapseWs (latinMaps x))) :=
    fun c hc => hzbad c (mem_stripWs _ c hc)
  have hynorm : wsNormed (stripWs (collapseWs (latinMaps x))) :=
    wsNormed_dropTrailWs _ (wsNormed_dropWhile _ _ (collapseWs_wsNormed _))
  have h2 : clean_and_correct_text (stripWs (collapseWs (latinMaps x))) =
      stripWs (collapseWs (latinMaps x)) := by
    unfold clean_and_correct_text
    rw [applyCorrections_thaiFree _ hyfree, latinMaps_id _ hybad,
      removeThaiSpacing_id _ hyfree, collapseWs_id_of_normed _ hynorm,
      applyWordFixes_id _ hyfree,
      stripWs_id _ (stripWs_head_not_ws _) (stripWs_last_not_ws _)]
  rw [hclean1]
  exact h2

theorem claim_C3_wit :
    (∀ c ∈ ("Usage 245 kWh total".data), isThaiChar c = false) ∧
    clean_and_correct_text (clean_and_correct_text ("Usage 245 kWh total".data)) =
      clean_and_correct_text ("Usage 245 kWh total".data) :=
  ⟨by decide, claim_C3_amended ("Usage 245 kWh total".data) (by decide)⟩

/-- Claim C10: the character-substitution table is applied to the whole text,
not only inside numeric tokens — the output of the corrector never contains
`O`, `o`, `l`, `I` or `S` — and the purely alphabetic input `Solar` comes out
as `501ar`, with digits in place of letters. -/
theorem claim_C10 (s : List Char) :
    (∀ c ∈ clean_and_correct_text s,
      c ≠ 'O' ∧ c ≠ 'o' ∧ c ≠ 'l' ∧ c ≠ 'I' ∧ c ≠ 'S') ∧
    clean_and_correct_text ("Solar".data) = "501ar".data := by
  constructor
  · have h1 : noBad (applyCorrections s) := noBad_applyCorrections s
    have h2 : noBad (removeThaiSpacing (applyCorrections s)) :=
      fun c hc => h1 c (mem_removeThaiSpacing _ c hc)
    have h3 : noBad (collapseWs (removeThaiSpacing (applyCorrections s))) := by
      intro c hc
      rcases mem_collapseWs _ c hc with h | rfl
      · exact h2 c h
      · decide
    have h4 : noBad (applyWordFixes (collapseWs (removeThaiSpacing (applyCorrections s)))) :=
      noBad_applyWordFixes _ h3
    intro c hc
    exact h4 c (mem_stripWs _ c hc)
  · decide

theorem claim_C10_wit :
    ('5' ≠ 'O' ∧ '5' ≠ 'o' ∧ '5' ≠ 'l' ∧ '5' ≠ 'I' ∧ '5' ≠ 'S') :=
  (claim_C10 ("Solar".data)).1 '5' (by decide)

end CarbonOCR
